import Mathlib

/-!
# Avogadro::QtGui::PluginManager

A shallow embedding of `avogadro/qtgui/pluginmanager.cpp` and the properties of
its plugin registry: path resolution in the constructor, the loading loop with
its two duplicate checks, and the capability-typed queries.

Everything the code asks of Qt and of the operating system is a field of
`Environment`: the directory of the executable, `QDir::absolutePath`,
`QFileInfo::exists`, `QDir::entryList(QDir::Files)` and what the
`QPluginLoader` built for a file answers.  The environment is an argument of
every call, so it may differ from one call to the next (a plugin that was not
loaded before the first `load` is loaded before the second).

`qDebug()` output and the `QT_DEBUG_PLUGINS` toggle write to the debug stream
only; they touch neither `m_pluginDirs` nor `m_plugins` and are left out.
-/

namespace Avogadro
namespace QtGui

/-! ## Data model -/

/-- A `QString`, used here for paths and file names only. -/
abbrev QString := String

/-- A `QObject *`: the address of the root component object of a plugin.
Two pointers denote the same instance exactly when they are equal. -/
abbrev QObjectPtr := Nat

/-- The null pointer, which `QPluginLoader::instance()` returns when the file
could not be loaded or its root component could not be instantiated. -/
abbrev nullPtr : QObjectPtr := 0

/-- What the `QPluginLoader` constructed for one file answers.
`pluginInstance` is the value of `instance()`; Qt returns the root component
object of the plugin, the same object on every call, so the two calls in the
loop body (in the `contains` test and in the assignment) read one value. -/
structure QPluginLoader where
  /-- The value of `isLoaded()` on the freshly constructed loader. -/
  isLoaded : Bool
  /-- The value of `instance()`; `nullPtr` when the load fails. -/
  pluginInstance : QObjectPtr
deriving DecidableEq, Repr

/-- The world outside the registry, as seen during one call. -/
structure Environment where
  /-- Whether the translation unit is compiled with `__APPLE__` defined. -/
  isApple : Bool
  /-- The value of `QCoreApplication::applicationDirPath()`. -/
  applicationDirPath : QString
  /-- The map `p ↦ QDir(p).absolutePath()`. -/
  absolutePath : QString → QString
  /-- The map `p ↦ QFileInfo(p).exists()`. -/
  fileExists : QString → Bool
  /-- The map `p ↦ QDir(p).entryList(QDir::Files)`; empty for a directory that
  does not exist. -/
  entryList : QString → List QString
  /-- The loader constructed for a file path. -/
  pluginLoader : QString → QPluginLoader

/-- The data members of `PluginManager`. -/
structure PluginManager where
  /-- The directories to scan, in resolution order. -/
  m_pluginDirs : List QString
  /-- The loaded plugin instances, in insertion order. -/
  m_plugins : List QObjectPtr
deriving DecidableEq, Repr

/-! ## Constructor -/

/-- The constructor `PluginManager::PluginManager(QObject *)`: it resolves the
plugin directory and appends it to the (empty) `m_pluginDirs`; nothing is
loaded. The block guarded by `#ifdef __APPLE__` is the conjunct `env.isApple`. -/
def PluginManager.ctor (env : Environment) : PluginManager :=
  let baseDir := env.applicationDirPath ++ "/.."
  let baseDir :=
    if env.isApple && !env.fileExists (env.absolutePath baseDir ++ "/Resources/qt.conf") then
      let buildDir := env.applicationDirPath ++ "/../../../.."
      buildDir
    else baseDir
  let pluginsDir := env.absolutePath baseDir ++ "/lib/avogadro2/plugins"
  { m_pluginDirs := [] ++ [env.absolutePath pluginsDir], m_plugins := [] }

/-! ## Loader -/

/-- One pass through the body of the `foreach` loop of `load(const QString &)`,
for the loader of one file: skip when the loader reports the plugin loaded or
its instance is in `m_plugins` already, skip when the instance is null,
otherwise append the instance. -/
def PluginManager.loadFile (self : PluginManager) (pluginLoader : QPluginLoader) :
    PluginManager :=
  if pluginLoader.isLoaded || self.m_plugins.contains pluginLoader.pluginInstance then self
  else
    let pluginInstance := pluginLoader.pluginInstance
    if pluginInstance = nullPtr then self
    else { self with m_plugins := self.m_plugins ++ [pluginInstance] }

/-- The method `PluginManager::load(const QString &path)`. -/
def PluginManager.load (self : PluginManager) (env : Environment) (path : QString) :
    PluginManager :=
  (env.entryList path).foldl
    (fun self pluginPath =>
      self.loadFile (env.pluginLoader (env.absolutePath path ++ "/" ++ pluginPath)))
    self

/-- The method `PluginManager::load()`: `load(dir)` for every entry of
`m_pluginDirs`, in order. -/
def PluginManager.loadAll (self : PluginManager) (env : Environment) : PluginManager :=
  self.m_pluginDirs.foldl (fun self dir => self.load env dir) self

/-- The loaders that `load(path)` constructs, in the order of the listing. -/
def loaders (env : Environment) (path : QString) : List QPluginLoader :=
  (env.entryList path).map
    (fun pluginPath => env.pluginLoader (env.absolutePath path ++ "/" ++ pluginPath))

/-- The loop of `load(const QString &)` run over a list of loaders. -/
def PluginManager.loadFiles (self : PluginManager) (pluginLoaders : List QPluginLoader) :
    PluginManager :=
  pluginLoaders.foldl PluginManager.loadFile self

/-- The registry states that arise from the constructor by calls of `load()`
and `load(path)`, the environment being arbitrary at every call. -/
inductive Reachable : PluginManager → Prop
  | ctor (env : Environment) : Reachable (PluginManager.ctor env)
  | load (s : PluginManager) (env : Environment) (path : QString) :
      Reachable s → Reachable (s.load env path)
  | loadAll (s : PluginManager) (env : Environment) :
      Reachable s → Reachable (s.loadAll env)

/-! ## Typed queries -/

/-- The capability interfaces the registry recognises. -/
inductive Capability where
  | ScenePluginFactory
  | ExtensionPluginFactory
deriving DecidableEq, Repr

/-- The run-time type information of the objects behind the pointers: whether
the object at an address implements a capability. -/
abbrev TypeInfo := QObjectPtr → Capability → Bool

/-- A `T *`: the view of a plugin instance as capability `T`. -/
structure Factory (T : Capability) where
  /-- The instance that is viewed. -/
  object : QObjectPtr
deriving DecidableEq, Repr

/-- Modelled from the spec: the run-time capability check `qobject_cast<T *>`
that the template `pluginFactories<T>()` of `pluginmanager.h` applies to each
entry; the header is not among the sources. The view exists when the instance
implements `T`; the null pointer has no view. -/
def qobject_cast (types : TypeInfo) (T : Capability) (plugin : QObjectPtr) :
    Option (Factory T) :=
  if plugin ≠ nullPtr ∧ types plugin T = true then some ⟨plugin⟩ else none

/-- An instance implements `T` when it is an object (not null) whose run-time
type implements `T`. -/
def implementsCapability (types : TypeInfo) (T : Capability) (plugin : QObjectPtr) : Bool :=
  plugin != nullPtr && types plugin T

/-- Modelled from the spec: the template member `pluginFactories<T>()`, defined
in `pluginmanager.h`, which is not among the sources. Following section 4.3:
filter the loaded-plugin collection, keeping the entries whose instance can be
viewed as capability `T`, and project each kept entry to its `T`-typed view,
in the order of the collection. -/
def PluginManager.pluginFactories (self : PluginManager) (types : TypeInfo) (T : Capability) :
    List (Factory T) :=
  self.m_plugins.filterMap (qobject_cast types T)

/-- The const method `PluginManager::scenePluginFactories()`. -/
def PluginManager.scenePluginFactories (self : PluginManager) (types : TypeInfo) :
    List (Factory Capability.ScenePluginFactory) :=
  self.pluginFactories types Capability.ScenePluginFactory

/-- The const method `PluginManager::extensionPluginFactories()`. -/
def PluginManager.extensionPluginFactories (self : PluginManager) (types : TypeInfo) :
    List (Factory Capability.ExtensionPluginFactory) :=
  self.pluginFactories types Capability.ExtensionPluginFactory

/-! ## The two layout conventions -/

/-- The installed-layout marker file, `<exe dir>/../Resources/qt.conf`. -/
def installedLayoutMarker (env : Environment) : QString :=
  env.absolutePath (env.applicationDirPath ++ "/..") ++ "/Resources/qt.conf"

/-- The installed-convention path: `<exe dir>/..` followed by
`/lib/avogadro2/plugins`. -/
def installedConventionPath (env : Environment) : QString :=
  env.absolutePath (env.absolutePath (env.applicationDirPath ++ "/..") ++ "/lib/avogadro2/plugins")

/-- The build-tree-convention path: `<exe dir>/../../../..` followed by
`/lib/avogadro2/plugins`. -/
def buildTreeConventionPath (env : Environment) : QString :=
  env.absolutePath
    (env.absolutePath (env.applicationDirPath ++ "/../../../..") ++ "/lib/avogadro2/plugins")

/-! ## Concrete environments -/

/-- An installation on a platform without `__APPLE__`: the executable is in
`/home/user/avogadro/install/bin`, no `qt.conf` exists, and the plugin
directory holds `goodA.plugin` (instance `1`), `goodB.plugin` (instance `2`)
and the corrupt `bad.plugin` (no instance). Nothing is loaded yet. -/
def installEnv : Environment where
  isApple := false
  applicationDirPath := "/home/user/avogadro/install/bin"
  absolutePath := fun p =>
    if p = "/home/user/avogadro/install/bin/.." then "/home/user/avogadro/install"
    else if p = "/home/user/avogadro/install/bin/../../../.." then "/home"
    else p
  fileExists := fun _ => false
  entryList := fun d =>
    if d = "/home/user/avogadro/install/lib/avogadro2/plugins" then
      ["goodA.plugin", "goodB.plugin", "bad.plugin"]
    else []
  pluginLoader := fun f =>
    if f = "/home/user/avogadro/install/lib/avogadro2/plugins/goodA.plugin" then ⟨false, 1⟩
    else if f = "/home/user/avogadro/install/lib/avogadro2/plugins/goodB.plugin" then ⟨false, 2⟩
    else ⟨false, nullPtr⟩

/-- The same installation after its two good plugins have been loaded, with a
loader that reports this reliably. -/
def installEnvLoaded : Environment where
  isApple := false
  applicationDirPath := "/home/user/avogadro/install/bin"
  absolutePath := installEnv.absolutePath
  fileExists := fun _ => false
  entryList := installEnv.entryList
  pluginLoader := fun f =>
    if f = "/home/user/avogadro/install/lib/avogadro2/plugins/goodA.plugin" then ⟨true, 1⟩
    else if f = "/home/user/avogadro/install/lib/avogadro2/plugins/goodB.plugin" then ⟨true, 2⟩
    else ⟨false, nullPtr⟩

/-- The directory that `installEnv` resolves to. -/
def installPluginsDir : QString := "/home/user/avogadro/install/lib/avogadro2/plugins"

/-- A directory with the single file `early.plugin`, a module that some other
part of the process has loaded already: its loader reports it loaded and would
yield the instance `7`. -/
def preloadedEnv : Environment where
  isApple := false
  applicationDirPath := "/home/user/avogadro/install/bin"
  absolutePath := installEnv.absolutePath
  fileExists := fun _ => false
  entryList := fun d =>
    if d = "/home/user/avogadro/install/lib/avogadro2/plugins" then ["early.plugin"] else []
  pluginLoader := fun _ => ⟨true, 7⟩

/-- A build tree on a platform with `__APPLE__`: the executable is in
`/build/bin/avogadro2.app/Contents/MacOS` and the bundle has no
`Resources/qt.conf`. -/
def macBuildEnv : Environment where
  isApple := true
  applicationDirPath := "/build/bin/avogadro2.app/Contents/MacOS"
  absolutePath := fun p =>
    if p = "/build/bin/avogadro2.app/Contents/MacOS/.." then "/build/bin/avogadro2.app/Contents"
    else if p = "/build/bin/avogadro2.app/Contents/MacOS/../../../.." then "/build"
    else p
  fileExists := fun _ => false
  entryList := fun _ => []
  pluginLoader := fun _ => ⟨false, nullPtr⟩

/-- An installed bundle on a platform with `__APPLE__`: as `macBuildEnv`, but
`Resources/qt.conf` exists in the bundle. -/
def macBundleEnv : Environment where
  isApple := true
  applicationDirPath := "/build/bin/avogadro2.app/Contents/MacOS"
  absolutePath := macBuildEnv.absolutePath
  fileExists := fun p => p = "/build/bin/avogadro2.app/Contents/Resources/qt.conf"
  entryList := fun _ => []
  pluginLoader := fun _ => ⟨false, nullPtr⟩

/-- Run-time types for the instances above: `1` is a scene plugin factory, `2`
an extension plugin factory, nothing else implements a capability. -/
def exampleTypes : TypeInfo := fun plugin T =>
  match plugin, T with
  | 1, Capability.ScenePluginFactory => true
  | 2, Capability.ExtensionPluginFactory => true
  | _, _ => false

/-! ## Basic facts about the loop -/

theorem load_eq_loadFiles (s : PluginManager) (env : Environment) (path : QString) :
    s.load env path = s.loadFiles (loaders env path) := by
  simp [PluginManager.load, PluginManager.loadFiles, loaders, List.foldl_map]

theorem loadFiles_nil (s : PluginManager) : s.loadFiles [] = s := rfl

theorem loadFiles_cons (s : PluginManager) (f : QPluginLoader) (fs : List QPluginLoader) :
    s.loadFiles (f :: fs) = (s.loadFile f).loadFiles fs := rfl

theorem loadFiles_append (s : PluginManager) (fs gs : List QPluginLoader) :
    s.loadFiles (fs ++ gs) = (s.loadFiles fs).loadFiles gs := by
  simp [PluginManager.loadFiles, List.foldl_append]

/-- The two outcomes of the loop body. -/
theorem loadFile_cases (s : PluginManager) (f : QPluginLoader) :
    (s.loadFile f = s ∧
      (f.isLoaded = true ∨ f.pluginInstance ∈ s.m_plugins ∨ f.pluginInstance = nullPtr)) ∨
    (s.loadFile f = { s with m_plugins := s.m_plugins ++ [f.pluginInstance] } ∧
      f.isLoaded = false ∧ f.pluginInstance ∉ s.m_plugins ∧ f.pluginInstance ≠ nullPtr) := by
  unfold PluginManager.loadFile
  by_cases h1 : f.isLoaded = true
  · left; simp [h1]
  · by_cases h2 : f.pluginInstance ∈ s.m_plugins
    · left; simp [h2]
    · by_cases h3 : f.pluginInstance = nullPtr
      · left
        refine ⟨?_, Or.inr (Or.inr h3)⟩
        simp [h3]
      · right
        have h1f : f.isLoaded = false := by simpa using h1
        refine ⟨?_, h1f, h2, h3⟩
        simp [h1f, h2, h3]

theorem loadFile_skip (s : PluginManager) (f : QPluginLoader)
    (h : f.isLoaded = true ∨ f.pluginInstance ∈ s.m_plugins ∨ f.pluginInstance = nullPtr) :
    s.loadFile f = s := by
  rcases loadFile_cases s f with h1 | ⟨_, h2, h3, h4⟩
  · exact h1.1
  · rcases h with h | h | h
    · rw [h2] at h; cases h
    · exact absurd h h3
    · exact absurd h h4

theorem loadFile_append (s : PluginManager) (f : QPluginLoader)
    (h1 : f.isLoaded = false) (h2 : f.pluginInstance ∉ s.m_plugins)
    (h3 : f.pluginInstance ≠ nullPtr) :
    s.loadFile f = { s with m_plugins := s.m_plugins ++ [f.pluginInstance] } := by
  rcases loadFile_cases s f with ⟨_, h | h | h⟩ | h
  · rw [h1] at h; cases h
  · exact absurd h h2
  · exact absurd h h3
  · exact h.1

/-! ## Frame, append-only and deduplication lemmas for the loop -/

theorem loadFile_pluginDirs (s : PluginManager) (f : QPluginLoader) :
    (s.loadFile f).m_pluginDirs = s.m_pluginDirs := by
  rcases loadFile_cases s f with h | h <;> rw [h.1]

theorem loadFiles_pluginDirs (fs : List QPluginLoader) (s : PluginManager) :
    (s.loadFiles fs).m_pluginDirs = s.m_pluginDirs := by
  induction fs generalizing s with
  | nil => rfl
  | cons f fs ih => rw [loadFiles_cons, ih, loadFile_pluginDirs]

theorem load_pluginDirs (s : PluginManager) (env : Environment) (path : QString) :
    (s.load env path).m_pluginDirs = s.m_pluginDirs := by
  rw [load_eq_loadFiles, loadFiles_pluginDirs]

theorem loadFile_nodup (s : PluginManager) (f : QPluginLoader) (h : s.m_plugins.Nodup) :
    (s.loadFile f).m_plugins.Nodup := by
  rcases loadFile_cases s f with h1 | ⟨h1, _, h3, _⟩
  · rw [h1.1]; exact h
  · rw [h1]
    exact List.Nodup.append h (List.nodup_singleton _) (by simpa using h3)

theorem loadFiles_nodup (fs : List QPluginLoader) (s : PluginManager)
    (h : s.m_plugins.Nodup) : (s.loadFiles fs).m_plugins.Nodup := by
  induction fs generalizing s with
  | nil => exact h
  | cons f fs ih => rw [loadFiles_cons]; exact ih _ (loadFile_nodup s f h)

theorem load_nodup (s : PluginManager) (env : Environment) (path : QString)
    (h : s.m_plugins.Nodup) : (s.load env path).m_plugins.Nodup := by
  rw [load_eq_loadFiles]; exact loadFiles_nodup _ s h

/-- A fold of `load` over any list of directories, as `load()` performs. -/
theorem foldl_load_nodup (env : Environment) (dirs : List QString) (s : PluginManager)
    (h : s.m_plugins.Nodup) :
    (dirs.foldl (fun self dir => PluginManager.load self env dir) s).m_plugins.Nodup := by
  induction dirs generalizing s with
  | nil => exact h
  | cons d ds ih => exact ih _ (load_nodup s env d h)

theorem loadAll_nodup (s : PluginManager) (env : Environment)
    (h : s.m_plugins.Nodup) : (s.loadAll env).m_plugins.Nodup :=
  foldl_load_nodup env s.m_pluginDirs s h

theorem reachable_nodup (s : PluginManager) (h : Reachable s) : s.m_plugins.Nodup := by
  induction h with
  | ctor env => exact List.nodup_nil
  | load s env path _ ih => exact load_nodup s env path ih
  | loadAll s env _ ih => exact loadAll_nodup s env ih

/-- The loop only appends, and what it appends are non-null instances, absent
from the collection before, of loaders that did not report the plugin loaded. -/
theorem loadFiles_appends (fs : List QPluginLoader) (s : PluginManager) :
    ∃ added : List QObjectPtr,
      (s.loadFiles fs).m_plugins = s.m_plugins ++ added ∧
      ∀ x ∈ added, x ≠ nullPtr ∧ x ∉ s.m_plugins ∧
        ∃ f ∈ fs, f.isLoaded = false ∧ f.pluginInstance = x := by
  induction fs generalizing s with
  | nil => exact ⟨[], by simp [loadFiles_nil], by simp⟩
  | cons f fs ih =>
    obtain ⟨added, hadd, hprop⟩ := ih (s.loadFile f)
    rw [loadFiles_cons]
    rcases loadFile_cases s f with h1 | ⟨h1, h2, h3, h4⟩
    · have hm : (s.loadFile f).m_plugins = s.m_plugins := by rw [h1.1]
      rw [hm] at hadd hprop
      refine ⟨added, hadd, fun x hx => ?_⟩
      obtain ⟨a, b, g, hg, c⟩ := hprop x hx
      exact ⟨a, b, g, List.mem_cons_of_mem _ hg, c⟩
    · have hm : (s.loadFile f).m_plugins = s.m_plugins ++ [f.pluginInstance] := by rw [h1]
      rw [hm] at hadd hprop
      refine ⟨f.pluginInstance :: added, by simpa using hadd, fun x hx => ?_⟩
      rcases List.mem_cons.1 hx with rfl | hx
      · exact ⟨h4, h3, f, List.mem_cons_self _ _, h2, rfl⟩
      · obtain ⟨a, b, g, hg, c⟩ := hprop x hx
        refine ⟨a, fun hmem => b ?_, g, List.mem_cons_of_mem _ hg, c⟩
        simp [hmem]

theorem loadFiles_mem_of_mem (fs : List QPluginLoader) (s : PluginManager) (x : QObjectPtr)
    (h : x ∈ s.m_plugins) : x ∈ (s.loadFiles fs).m_plugins := by
  obtain ⟨added, hadd, _⟩ := loadFiles_appends fs s
  rw [hadd]; exact List.mem_append_left _ h

theorem load_mem_of_mem (s : PluginManager) (env : Environment) (path : QString)
    (x : QObjectPtr) (h : x ∈ s.m_plugins) : x ∈ (s.load env path).m_plugins := by
  rw [load_eq_loadFiles]; exact loadFiles_mem_of_mem _ s x h

theorem foldl_load_mem_of_mem (env : Environment) (dirs : List QString) (s : PluginManager)
    (x : QObjectPtr) (h : x ∈ s.m_plugins) :
    x ∈ (dirs.foldl (fun self dir => PluginManager.load self env dir) s).m_plugins := by
  induction dirs generalizing s with
  | nil => exact h
  | cons d ds ih => exact ih _ (load_mem_of_mem s env d x h)

/-- After the loop, the instance of every file that was not reported loaded
and did load is in the collection. -/
theorem loadFiles_mem (fs : List QPluginLoader) (s : PluginManager) (f : QPluginLoader)
    (hf : f ∈ fs) (h1 : f.isLoaded = false ∨ f.pluginInstance ∈ s.m_plugins)
    (h2 : f.pluginInstance ≠ nullPtr) :
    f.pluginInstance ∈ (s.loadFiles fs).m_plugins := by
  induction fs generalizing s with
  | nil => cases hf
  | cons g gs ih =>
    rw [loadFiles_cons]
    rcases List.mem_cons.1 hf with rfl | hf
    · apply loadFiles_mem_of_mem
      rcases loadFile_cases s f with ⟨h, hc⟩ | ⟨h, _⟩
      · rw [h]
        rcases h1 with h1 | h1
        · rcases hc with hc | hc | hc
          · rw [h1] at hc; cases hc
          · exact hc
          · exact absurd hc h2
        · exact h1
      · rw [h]; simp
    · refine ih _ hf ?_
      rcases h1 with h1 | h1
      · exact Or.inl h1
      · right
        have := loadFiles_mem_of_mem [g] s _ h1
        simpa [PluginManager.loadFiles] using this

/-- The loop changes nothing when every file is reported loaded, fails to load,
or has its instance in the collection already. -/
theorem loadFiles_noop (fs : List QPluginLoader) (s : PluginManager)
    (h : ∀ f ∈ fs, f.isLoaded = true ∨ f.pluginInstance ∈ s.m_plugins ∨
      f.pluginInstance = nullPtr) :
    s.loadFiles fs = s := by
  induction fs with
  | nil => rfl
  | cons f fs ih =>
    rw [loadFiles_cons, loadFile_skip s f (h f (List.mem_cons_self _ _))]
    exact ih (fun g hg => h g (List.mem_cons_of_mem _ hg))

/-! ## Loading over several directories -/

theorem foldl_load_pluginDirs (env : Environment) (dirs : List QString) (s : PluginManager) :
    (dirs.foldl (fun self dir => PluginManager.load self env dir) s).m_pluginDirs =
      s.m_pluginDirs := by
  induction dirs generalizing s with
  | nil => rfl
  | cons d ds ih => rw [List.foldl_cons, ih, load_pluginDirs]

theorem foldl_load_appends (env : Environment) (dirs : List QString) (s : PluginManager) :
    ∃ added : List QObjectPtr,
      (dirs.foldl (fun self dir => PluginManager.load self env dir) s).m_plugins =
        s.m_plugins ++ added ∧
      ∀ x ∈ added, x ≠ nullPtr ∧ x ∉ s.m_plugins ∧
        ∃ dir ∈ dirs, ∃ f ∈ loaders env dir, f.isLoaded = false ∧ f.pluginInstance = x := by
  induction dirs generalizing s with
  | nil => exact ⟨[], by simp, by simp⟩
  | cons d ds ih =>
    obtain ⟨added2, h2, p2⟩ := ih (s.load env d)
    obtain ⟨added1, h1, p1⟩ := loadFiles_appends (loaders env d) s
    rw [← load_eq_loadFiles] at h1
    rw [h1] at h2 p2
    refine ⟨added1 ++ added2, by simpa using h2, fun x hx => ?_⟩
    rcases List.mem_append.1 hx with hx | hx
    · obtain ⟨a, b, f, hf, c⟩ := p1 x hx
      exact ⟨a, b, d, List.mem_cons_self _ _, f, hf, c⟩
    · obtain ⟨a, b, dir, hdir, c⟩ := p2 x hx
      refine ⟨a, fun hmem => b ?_, dir, List.mem_cons_of_mem _ hdir, c⟩
      simp [hmem]

/-! ## The typed queries -/

theorem qobject_cast_eq_some (types : TypeInfo) (T : Capability) (x : QObjectPtr)
    (v : Factory T) :
    qobject_cast types T x = some v ↔ implementsCapability types T x = true ∧ v = ⟨x⟩ := by
  unfold qobject_cast implementsCapability
  by_cases h : x ≠ nullPtr ∧ types x T = true
  · rw [if_pos h]
    obtain ⟨h1, h2⟩ := h
    constructor
    · intro h0
      injection h0 with h0
      exact ⟨by simp [h1, h2], h0.symm⟩
    · rintro ⟨_, rfl⟩
      rfl
  · rw [if_neg h]
    constructor
    · intro h0; cases h0
    · rintro ⟨h1, _⟩
      exfalso; apply h
      simpa using h1

theorem mem_pluginFactories (s : PluginManager) (types : TypeInfo) (T : Capability)
    (x : QObjectPtr) :
    (⟨x⟩ : Factory T) ∈ s.pluginFactories types T ↔
      x ∈ s.m_plugins ∧ implementsCapability types T x = true := by
  unfold PluginManager.pluginFactories
  rw [List.mem_filterMap]
  constructor
  · rintro ⟨a, ha, hc⟩
    obtain ⟨h1, h2⟩ := (qobject_cast_eq_some types T a _).1 hc
    have : x = a := by injection h2
    subst this
    exact ⟨ha, h1⟩
  · rintro ⟨h1, h2⟩
    exact ⟨x, h1, (qobject_cast_eq_some types T x _).2 ⟨h2, rfl⟩⟩

theorem map_object_filterMap (types : TypeInfo) (T : Capability) (l : List QObjectPtr) :
    (l.filterMap (qobject_cast types T)).map Factory.object =
      l.filter (implementsCapability types T) := by
  induction l with
  | nil => rfl
  | cons a l ih =>
    by_cases h : implementsCapability types T a = true
    · have hc : qobject_cast types T a = some ⟨a⟩ := (qobject_cast_eq_some types T a _).2 ⟨h, rfl⟩
      rw [List.filterMap_cons_some hc, List.filter_cons_of_pos h, List.map_cons, ih]
    · have hc : qobject_cast types T a = none := by
        cases hq : qobject_cast types T a with
        | none => rfl
        | some v => exact absurd ((qobject_cast_eq_some types T a v).1 hq).1 h
      rw [List.filterMap_cons_none hc, List.filter_cons_of_neg h, ih]

theorem map_object_pluginFactories (s : PluginManager) (types : TypeInfo) (T : Capability) :
    (s.pluginFactories types T).map Factory.object =
      s.m_plugins.filter (implementsCapability types T) :=
  map_object_filterMap types T s.m_plugins

theorem pluginFactories_nodup (s : PluginManager) (types : TypeInfo) (T : Capability)
    (h : s.m_plugins.Nodup) :
    (s.pluginFactories types T).Nodup ∧ ((s.pluginFactories types T).map Factory.object).Nodup := by
  have h2 : ((s.pluginFactories types T).map Factory.object).Nodup := by
    rw [map_object_pluginFactories]; exact h.filter _
  exact ⟨List.Nodup.of_map _ h2, h2⟩

theorem loadFiles_length (fs : List QPluginLoader) (s : PluginManager)
    (hflag : ∀ f ∈ fs, f.pluginInstance ≠ nullPtr → f.isLoaded = false)
    (hnew : ∀ f ∈ fs, f.pluginInstance ≠ nullPtr → f.pluginInstance ∉ s.m_plugins)
    (hdistinct : ((fs.filter (fun f => f.pluginInstance ≠ nullPtr)).map
      QPluginLoader.pluginInstance).Nodup) :
    (s.loadFiles fs).m_plugins =
      s.m_plugins ++ (fs.filter (fun f => f.pluginInstance ≠ nullPtr)).map
        QPluginLoader.pluginInstance := by
  induction fs generalizing s with
  | nil => simp [loadFiles_nil]
  | cons f fs ih =>
    rw [loadFiles_cons]
    by_cases h0 : f.pluginInstance = nullPtr
    · rw [loadFile_skip s f (Or.inr (Or.inr h0))]
      have hfil : (f :: fs).filter (fun f => f.pluginInstance ≠ nullPtr) =
          fs.filter (fun f => f.pluginInstance ≠ nullPtr) := by
        simp [List.filter_cons, h0]
      rw [hfil] at hdistinct ⊢
      exact ih s (fun g hg => hflag g (List.mem_cons_of_mem _ hg))
        (fun g hg => hnew g (List.mem_cons_of_mem _ hg)) hdistinct
    · have hfil : (f :: fs).filter (fun f => f.pluginInstance ≠ nullPtr) =
          f :: fs.filter (fun f => f.pluginInstance ≠ nullPtr) := by
        simp [List.filter_cons, h0]
      rw [hfil, List.map_cons, List.nodup_cons] at hdistinct
      rw [hfil, loadFile_append s f (hflag f (List.mem_cons_self _ _) h0)
        (hnew f (List.mem_cons_self _ _) h0) h0]
      rw [ih _ (fun g hg => hflag g (List.mem_cons_of_mem _ hg)) ?_ hdistinct.2]
      · simp
      · intro g hg hg0
        simp only [List.mem_append, List.mem_singleton, not_or]
        refine ⟨hnew g (List.mem_cons_of_mem _ hg) hg0, fun heq => hdistinct.1 ?_⟩
        rw [← heq]
        exact List.mem_map.2 ⟨g, List.mem_filter.2 ⟨hg, by simpa using hg0⟩, rfl⟩

/-! ## Loading again -/

theorem forall₂_exists_left {α : Type} (R : α → α → Prop) (l1 l2 : List α)
    (h : List.Forall₂ R l1 l2) : ∀ b ∈ l2, ∃ a ∈ l1, R a b := by
  induction h with
  | nil => intro b hb; cases hb
  | cons hab _ ih =>
    intro b hb
    rcases List.mem_cons.1 hb with rfl | hb
    · exact ⟨_, List.mem_cons_self _ _, hab⟩
    · obtain ⟨a, ha, hr⟩ := ih b hb
      exact ⟨a, List.mem_cons_of_mem _ ha, hr⟩

theorem load_mem (s : PluginManager) (env : Environment) (path : QString) (f : QPluginLoader)
    (hf : f ∈ loaders env path) (h1 : f.isLoaded = false ∨ f.pluginInstance ∈ s.m_plugins)
    (h2 : f.pluginInstance ≠ nullPtr) :
    f.pluginInstance ∈ (s.load env path).m_plugins := by
  rw [load_eq_loadFiles]; exact loadFiles_mem _ s f hf h1 h2

theorem foldl_load_mem (env : Environment) (dirs : List QString) (s : PluginManager)
    (dir : QString) (hdir : dir ∈ dirs) (f : QPluginLoader) (hf : f ∈ loaders env dir)
    (h1 : f.isLoaded = false ∨ f.pluginInstance ∈ s.m_plugins)
    (h2 : f.pluginInstance ≠ nullPtr) :
    f.pluginInstance ∈
      (dirs.foldl (fun self dir => PluginManager.load self env dir) s).m_plugins := by
  induction dirs generalizing s with
  | nil => cases hdir
  | cons d ds ih =>
    rw [List.foldl_cons]
    rcases List.mem_cons.1 hdir with rfl | hdir
    · exact foldl_load_mem_of_mem env ds _ _ (load_mem s env dir f hf h1 h2)
    · refine ih _ hdir ?_
      rcases h1 with h1 | h1
      · exact Or.inl h1
      · exact Or.inr (load_mem_of_mem s env d _ h1)

/-- Files that fail to load can be struck from the listing: the loop passes
over them and goes on with the next file. -/
theorem loadFiles_filter_failed (fs : List QPluginLoader) (s : PluginManager) :
    s.loadFiles fs = s.loadFiles (fs.filter (fun f => f.pluginInstance ≠ nullPtr)) := by
  induction fs generalizing s with
  | nil => rfl
  | cons f fs ih =>
    by_cases h0 : f.pluginInstance = nullPtr
    · have hfil : (f :: fs).filter (fun f => f.pluginInstance ≠ nullPtr) =
          fs.filter (fun f => f.pluginInstance ≠ nullPtr) := by
        simp [List.filter_cons, h0]
      rw [hfil, loadFiles_cons, loadFile_skip s f (Or.inr (Or.inr h0))]
      exact ih s
    · have hfil : (f :: fs).filter (fun f => f.pluginInstance ≠ nullPtr) =
          f :: fs.filter (fun f => f.pluginInstance ≠ nullPtr) := by
        simp [List.filter_cons, h0]
      rw [hfil, loadFiles_cons, loadFiles_cons]
      exact ih _

theorem length_filter_loaded (fs : List QPluginLoader) :
    (fs.filter (fun f => f.pluginInstance ≠ nullPtr)).length =
      fs.length - (fs.filter (fun f => f.pluginInstance = nullPtr)).length := by
  have h := List.length_eq_length_filter_add (l := fs)
    (fun f => decide (f.pluginInstance ≠ nullPtr))
  have e : (fun f : QPluginLoader => !decide (f.pluginInstance ≠ nullPtr)) =
      (fun f => decide (f.pluginInstance = nullPtr)) := by
    funext f; simp
  rw [e] at h
  omega

/-! ## What the loop leaves out -/

theorem loadFiles_not_mem (fs : List QPluginLoader) (s : PluginManager) (x : QObjectPtr)
    (hx : x ∉ s.m_plugins) (h : ∀ f ∈ fs, f.pluginInstance = x → f.isLoaded = true) :
    x ∉ (s.loadFiles fs).m_plugins := by
  obtain ⟨added, hadd, hprop⟩ := loadFiles_appends fs s
  rw [hadd]
  intro hmem
  rcases List.mem_append.1 hmem with hm | hm
  · exact hx hm
  · obtain ⟨_, _, f, hf, hl, hi⟩ := hprop x hm
    have := h f hf hi
    rw [hl] at this; cases this

theorem load_not_mem (s : PluginManager) (env : Environment) (path : QString) (x : QObjectPtr)
    (hx : x ∉ s.m_plugins)
    (h : ∀ f ∈ loaders env path, f.pluginInstance = x → f.isLoaded = true) :
    x ∉ (s.load env path).m_plugins := by
  rw [load_eq_loadFiles]; exact loadFiles_not_mem _ s x hx h

theorem foldl_load_not_mem (env : Environment) (dirs : List QString) (s : PluginManager)
    (x : QObjectPtr) (hx : x ∉ s.m_plugins)
    (h : ∀ dir ∈ dirs, ∀ f ∈ loaders env dir, f.pluginInstance = x → f.isLoaded = true) :
    x ∉ (dirs.foldl (fun self dir => PluginManager.load self env dir) s).m_plugins := by
  obtain ⟨added, hadd, hprop⟩ := foldl_load_appends env dirs s
  rw [hadd]
  intro hmem
  rcases List.mem_append.1 hmem with hm | hm
  · exact hx hm
  · obtain ⟨_, _, dir, hdir, f, hf, hl, hi⟩ := hprop x hm
    have := h dir hdir f hf hi
    rw [hl] at this; cases this

/-- The loop adds at most one entry per file that does load. -/
theorem loadFiles_length_le (fs : List QPluginLoader) (s : PluginManager) :
    (s.loadFiles fs).m_plugins.length ≤
      s.m_plugins.length + (fs.filter (fun f => f.pluginInstance ≠ nullPtr)).length := by
  induction fs generalizing s with
  | nil => simp [loadFiles_nil]
  | cons f fs ih =>
    rw [loadFiles_cons]
    have hi := ih (s.loadFile f)
    rcases loadFile_cases s f with ⟨h, _⟩ | ⟨h, _, _, h0⟩
    · rw [h] at hi
      have hle : (fs.filter (fun f => f.pluginInstance ≠ nullPtr)).length ≤
          ((f :: fs).filter (fun f => f.pluginInstance ≠ nullPtr)).length := by
        rw [List.filter_cons]
        split
        · simp
        · exact Nat.le_refl _
      rw [h]
      omega
    · have hfil : (f :: fs).filter (fun f => f.pluginInstance ≠ nullPtr) =
          f :: fs.filter (fun f => f.pluginInstance ≠ nullPtr) := by
        simp [List.filter_cons, h0]
      have hm : (s.loadFile f).m_plugins = s.m_plugins ++ [f.pluginInstance] := by rw [h]
      rw [hm] at hi
      rw [hfil]
      simp only [List.length_append, List.length_cons, List.length_nil] at hi ⊢
      omega

/-! ## The claims -/

/-- C1 (deduplication invariant I1). If `m_plugins` holds no instance twice
before `load(path)`, it holds none twice afterwards, whatever the directory
listing and whatever each loader answers; the same holds for `load()` over all
of `m_pluginDirs`; hence every registry reachable from the constructor by
`load()` and `load(path)` calls is free of duplicates. -/
theorem dedup_invariant :
    (∀ (s : PluginManager) (env : Environment) (path : QString),
      s.m_plugins.Nodup → (s.load env path).m_plugins.Nodup) ∧
    (∀ (s : PluginManager) (env : Environment),
      s.m_plugins.Nodup → (s.loadAll env).m_plugins.Nodup) ∧
    (∀ s : PluginManager, Reachable s → s.m_plugins.Nodup) :=
  ⟨load_nodup, loadAll_nodup, reachable_nodup⟩

/-- Witness of C1: the registry that has loaded the install directory holds
`1` and `2` once each, and stays duplicate-free when the directory is loaded
again by `load(path)` or `load()`. -/
theorem dedup_invariant_witness :
    ((PluginManager.ctor installEnv).loadAll installEnv).m_plugins.Nodup ∧
    (((PluginManager.ctor installEnv).loadAll installEnv).load installEnv
      installPluginsDir).m_plugins.Nodup ∧
    (((PluginManager.ctor installEnv).loadAll installEnv).loadAll installEnv).m_plugins.Nodup ∧
    Reachable ((PluginManager.ctor installEnv).loadAll installEnv) :=
  ⟨by decide,
   dedup_invariant.1 _ installEnv installPluginsDir (by decide),
   dedup_invariant.2.1 _ installEnv (by decide),
   Reachable.loadAll _ _ (Reachable.ctor _)⟩

/-- C10 (loading is append-only). For every listing and every loader answer,
`m_plugins` before `load(path)` is a prefix of `m_plugins` afterwards, every
appended entry is a non-null instance returned by the loader of a file of that
listing that did not report the plugin loaded, and `m_pluginDirs` is
unchanged; likewise for `load()`, the files being those of the directories in
`m_pluginDirs`. -/
theorem load_append_only (s : PluginManager) (env : Environment) (path : QString) :
    (∃ added : List QObjectPtr,
      (s.load env path).m_plugins = s.m_plugins ++ added ∧
      ∀ x ∈ added, x ≠ nullPtr ∧
        ∃ f ∈ loaders env path, f.isLoaded = false ∧ f.pluginInstance = x) ∧
    (s.load env path).m_pluginDirs = s.m_pluginDirs ∧
    (∃ added : List QObjectPtr,
      (s.loadAll env).m_plugins = s.m_plugins ++ added ∧
      ∀ x ∈ added, x ≠ nullPtr ∧
        ∃ dir ∈ s.m_pluginDirs, ∃ f ∈ loaders env dir,
          f.isLoaded = false ∧ f.pluginInstance = x) ∧
    (s.loadAll env).m_pluginDirs = s.m_pluginDirs := by
  refine ⟨?_, load_pluginDirs s env path, ?_, foldl_load_pluginDirs env s.m_pluginDirs s⟩
  · obtain ⟨added, h, p⟩ := loadFiles_appends (loaders env path) s
    rw [← load_eq_loadFiles] at h
    exact ⟨added, h, fun x hx => ⟨(p x hx).1, (p x hx).2.2⟩⟩
  · obtain ⟨added, h, p⟩ := foldl_load_appends env s.m_pluginDirs s
    exact ⟨added, h, fun x hx => ⟨(p x hx).1, (p x hx).2.2⟩⟩

/-- C4 (capability filtering). In every registry state, the view of an instance
`x` is in `scenePluginFactories()` exactly when `x` is in `m_plugins` and
implements the scene-plugin-factory capability, and in
`extensionPluginFactories()` exactly when `x` is in `m_plugins` and implements
the extension-plugin-factory capability. So an instance that lacks a
capability is never in the query for it, and a loaded instance with both
capabilities is in both queries. -/
theorem capability_filtering (types : TypeInfo) (s : PluginManager) (x : QObjectPtr) :
    ((⟨x⟩ : Factory Capability.ScenePluginFactory) ∈ s.scenePluginFactories types ↔
      x ∈ s.m_plugins ∧
        implementsCapability types Capability.ScenePluginFactory x = true) ∧
    ((⟨x⟩ : Factory Capability.ExtensionPluginFactory) ∈ s.extensionPluginFactories types ↔
      x ∈ s.m_plugins ∧
        implementsCapability types Capability.ExtensionPluginFactory x = true) ∧
    (implementsCapability types Capability.ScenePluginFactory x = false →
      (⟨x⟩ : Factory Capability.ScenePluginFactory) ∉ s.scenePluginFactories types) ∧
    (implementsCapability types Capability.ExtensionPluginFactory x = false →
      (⟨x⟩ : Factory Capability.ExtensionPluginFactory) ∉ s.extensionPluginFactories types) ∧
    (x ∈ s.m_plugins →
      implementsCapability types Capability.ScenePluginFactory x = true →
      implementsCapability types Capability.ExtensionPluginFactory x = true →
      (⟨x⟩ : Factory Capability.ScenePluginFactory) ∈ s.scenePluginFactories types ∧
      (⟨x⟩ : Factory Capability.ExtensionPluginFactory) ∈ s.extensionPluginFactories types) := by
  have hs := mem_pluginFactories s types Capability.ScenePluginFactory x
  have he := mem_pluginFactories s types Capability.ExtensionPluginFactory x
  refine ⟨hs, he, ?_, ?_, ?_⟩
  · intro h hmem
    have := (hs.1 hmem).2
    rw [h] at this; cases this
  · intro h hmem
    have := (he.1 hmem).2
    rw [h] at this; cases this
  · intro hx h1 h2
    exact ⟨hs.2 ⟨hx, h1⟩, he.2 ⟨hx, h2⟩⟩

/-- Witness of C4: with `goodA` and `goodB` loaded, the scene-only instance `1`
is absent from the extension query; when every object implements both
capabilities, instance `1` is in both queries. -/
theorem capability_filtering_witness :
    (implementsCapability exampleTypes Capability.ExtensionPluginFactory 1 = false ∧
      (⟨1⟩ : Factory Capability.ExtensionPluginFactory) ∉
        ((PluginManager.ctor installEnv).loadAll installEnv).extensionPluginFactories
          exampleTypes) ∧
    ((⟨1⟩ : Factory Capability.ScenePluginFactory) ∈
        ((PluginManager.ctor installEnv).loadAll installEnv).scenePluginFactories
          (fun _ _ => true) ∧
      (⟨1⟩ : Factory Capability.ExtensionPluginFactory) ∈
        ((PluginManager.ctor installEnv).loadAll installEnv).extensionPluginFactories
          (fun _ _ => true)) :=
  ⟨⟨by decide,
    (capability_filtering exampleTypes
      ((PluginManager.ctor installEnv).loadAll installEnv) 1).2.2.2.1 (by decide)⟩,
   (capability_filtering (fun _ _ => true)
      ((PluginManager.ctor installEnv).loadAll installEnv) 1).2.2.2.2
      (by decide) (by decide) (by decide)⟩

/-- C5 (typed-query order and purity). In every registry state the instances
viewed by `scenePluginFactories()` are the entries of `m_plugins` that
implement the capability, in the order of `m_plugins`, hence a subsequence of
it; likewise for `extensionPluginFactories()`; the result may be empty, as on
a freshly constructed registry. The queries are const methods, embedded as
functions from the registry to the returned list: they have no registry to
return, so `m_plugins` and `m_pluginDirs` are as before and equal states give
equal results. -/
theorem typed_query_order (types : TypeInfo) (s : PluginManager) (env : Environment) :
    (s.scenePluginFactories types).map Factory.object =
      s.m_plugins.filter (implementsCapability types Capability.ScenePluginFactory) ∧
    ((s.scenePluginFactories types).map Factory.object).Sublist s.m_plugins ∧
    (s.extensionPluginFactories types).map Factory.object =
      s.m_plugins.filter (implementsCapability types Capability.ExtensionPluginFactory) ∧
    ((s.extensionPluginFactories types).map Factory.object).Sublist s.m_plugins ∧
    (PluginManager.ctor env).scenePluginFactories types = [] ∧
    (PluginManager.ctor env).extensionPluginFactories types = [] := by
  have hs := map_object_pluginFactories s types Capability.ScenePluginFactory
  have he := map_object_pluginFactories s types Capability.ExtensionPluginFactory
  refine ⟨hs, ?_, he, ?_, rfl, rfl⟩
  · unfold PluginManager.scenePluginFactories
    rw [hs]; exact List.filter_sublist _
  · unfold PluginManager.extensionPluginFactories
    rw [he]; exact List.filter_sublist _

/-- C6 (the typed queries never return duplicates). In every registry state
reachable from the constructor by `load()` and `load(path)` calls,
`scenePluginFactories()` and `extensionPluginFactories()` each contain no view
twice and view no instance twice. -/
theorem typed_queries_nodup (s : PluginManager) (h : Reachable s) (types : TypeInfo) :
    (s.scenePluginFactories types).Nodup ∧
    ((s.scenePluginFactories types).map Factory.object).Nodup ∧
    (s.extensionPluginFactories types).Nodup ∧
    ((s.extensionPluginFactories types).map Factory.object).Nodup :=
  ⟨(pluginFactories_nodup s types _ (reachable_nodup s h)).1,
   (pluginFactories_nodup s types _ (reachable_nodup s h)).2,
   (pluginFactories_nodup s types _ (reachable_nodup s h)).1,
   (pluginFactories_nodup s types _ (reachable_nodup s h)).2⟩

/-- Witness of C6: the install directory loaded twice, by `load()` and then by
`load(path)`, every object implementing both capabilities. -/
theorem typed_queries_nodup_witness :
    Reachable (((PluginManager.ctor installEnv).loadAll installEnv).load installEnv
      installPluginsDir) ∧
    ((((PluginManager.ctor installEnv).loadAll installEnv).load installEnv
      installPluginsDir).scenePluginFactories (fun _ _ => true)).Nodup ∧
    ((((PluginManager.ctor installEnv).loadAll installEnv).load installEnv
      installPluginsDir).extensionPluginFactories (fun _ _ => true)).Nodup :=
  ⟨Reachable.load _ _ _ (Reachable.loadAll _ _ (Reachable.ctor _)),
   (typed_queries_nodup _
     (Reachable.load _ installEnv installPluginsDir
       (Reachable.loadAll _ installEnv (Reachable.ctor installEnv))) (fun _ _ => true)).1,
   (typed_queries_nodup _
     (Reachable.load _ installEnv installPluginsDir
       (Reachable.loadAll _ installEnv (Reachable.ctor installEnv))) (fun _ _ => true)).2.2.1⟩

/-- C7 (empty-safe). When the file listing of `path` is empty (the path does
not exist or holds no regular file), `load(path)` returns the registry
unchanged; `load` is a total function, there is no error to raise. On a freshly
constructed registry the result has zero loaded plugins and both typed queries
are empty. -/
theorem empty_safe (s : PluginManager) (env : Environment) (path : QString)
    (h : env.entryList path = []) :
    s.load env path = s ∧
    ∀ (env0 : Environment) (types : TypeInfo),
      ((PluginManager.ctor env0).load env path).m_plugins = [] ∧
      ((PluginManager.ctor env0).load env path).m_plugins.length = 0 ∧
      ((PluginManager.ctor env0).load env path).scenePluginFactories types = [] ∧
      ((PluginManager.ctor env0).load env path).extensionPluginFactories types = [] := by
  have key : ∀ t : PluginManager, t.load env path = t := by
    intro t
    unfold PluginManager.load
    rw [h]; rfl
  refine ⟨key s, fun env0 types => ?_⟩
  rw [key]
  exact ⟨rfl, rfl, rfl, rfl⟩

/-- Witness of C7: nothing is listed under `/nonexistent`. -/
theorem empty_safe_witness :
    macBuildEnv.entryList "/nonexistent" = [] ∧
    ((PluginManager.ctor installEnv).loadAll installEnv).load macBuildEnv "/nonexistent" =
      (PluginManager.ctor installEnv).loadAll installEnv ∧
    ((PluginManager.ctor macBuildEnv).load macBuildEnv "/nonexistent").m_plugins = [] :=
  ⟨rfl,
   (empty_safe ((PluginManager.ctor installEnv).loadAll installEnv) macBuildEnv
      "/nonexistent" rfl).1,
   ((empty_safe ((PluginManager.ctor installEnv).loadAll installEnv) macBuildEnv
      "/nonexistent" rfl).2 macBuildEnv exampleTypes).1⟩

/-- C2, as stated, fails: `early.plugin` would load to the usable instance `7`,
but its loader reports the module loaded, so the guard of the loop skips it on
both loads and `7` occurs in `m_plugins` zero times, not once; the same after
two calls of `load()`. -/
theorem load_twice_counterexample :
    (⟨true, 7⟩ : QPluginLoader) ∈ loaders preloadedEnv installPluginsDir ∧
    (7 : QObjectPtr) ≠ nullPtr ∧
    (((PluginManager.ctor preloadedEnv).load preloadedEnv installPluginsDir).load
      preloadedEnv installPluginsDir).m_plugins.count 7 = 0 ∧
    (((PluginManager.ctor preloadedEnv).loadAll preloadedEnv).loadAll
      preloadedEnv).m_plugins.count 7 = 0 ∧
    ¬ ((((PluginManager.ctor preloadedEnv).load preloadedEnv installPluginsDir).load
      preloadedEnv installPluginsDir).m_plugins.count 7 = 1) := by
  decide

/-- C2, amended. (1) If `m_plugins` is duplicate-free, then for every file whose
loader yields a usable instance and, at the first load, does not report the
module loaded (or whose instance is registered already), that instance occurs
exactly once in `m_plugins` after `load(path1)` followed by any `load(path2)`,
be it the same directory again or another one referencing the same module.
(2) When the second load sees, file by file, the same instances as the first
and every file reported loaded at the first load is reported loaded again, the
second load leaves the registry exactly as the first left it. (3) If
`m_plugins` is duplicate-free, then after `load()` the instance of such a file
of any directory of `m_pluginDirs` occurs exactly once, however many
directories reference its module. (4) A file whose loader reports the module
loaded is skipped, whatever the registry holds; so an instance that is not
registered and that only such files yield, at both loads, contributes no
entry: it occurs zero times after the two loads, and zero times after
`load()` when this holds of every directory of `m_pluginDirs`. -/
theorem load_twice (s : PluginManager) (env1 env2 : Environment) (path1 path2 : QString) :
    (s.m_plugins.Nodup → ∀ f ∈ loaders env1 path1,
      (f.isLoaded = false ∨ f.pluginInstance ∈ s.m_plugins) → f.pluginInstance ≠ nullPtr →
      ((s.load env1 path1).load env2 path2).m_plugins.count f.pluginInstance = 1) ∧
    (List.Forall₂
        (fun f1 f2 : QPluginLoader => f2.pluginInstance = f1.pluginInstance ∧
          (f1.isLoaded = true → f2.isLoaded = true))
        (loaders env1 path1) (loaders env2 path2) →
      (s.load env1 path1).load env2 path2 = s.load env1 path1) ∧
    (s.m_plugins.Nodup → ∀ dir ∈ s.m_pluginDirs, ∀ f ∈ loaders env1 dir,
      (f.isLoaded = false ∨ f.pluginInstance ∈ s.m_plugins) → f.pluginInstance ≠ nullPtr →
      (s.loadAll env1).m_plugins.count f.pluginInstance = 1) ∧
    (∀ (t : PluginManager) (f : QPluginLoader), f.isLoaded = true → t.loadFile f = t) ∧
    (∀ x : QObjectPtr, x ∉ s.m_plugins →
      (∀ f ∈ loaders env1 path1, f.pluginInstance = x → f.isLoaded = true) →
      (∀ f ∈ loaders env2 path2, f.pluginInstance = x → f.isLoaded = true) →
      x ∉ (s.load env1 path1).m_plugins ∧
      ((s.load env1 path1).load env2 path2).m_plugins.count x = 0) ∧
    (∀ x : QObjectPtr, x ∉ s.m_plugins →
      (∀ dir ∈ s.m_pluginDirs, ∀ f ∈ loaders env1 dir,
        f.pluginInstance = x → f.isLoaded = true) →
      (s.loadAll env1).m_plugins.count x = 0) := by
  refine ⟨?_, ?_, ?_, ?_, ?_, ?_⟩
  · intro hs f hf h1 h2
    apply List.count_eq_one_of_mem
    · exact load_nodup _ env2 path2 (load_nodup s env1 path1 hs)
    · exact load_mem_of_mem _ env2 path2 _ (load_mem s env1 path1 f hf h1 h2)
  · intro hrel
    rw [load_eq_loadFiles (s.load env1 path1) env2 path2]
    apply loadFiles_noop
    intro f2 hf2
    obtain ⟨f1, hf1, hinst, hflag⟩ := forall₂_exists_left _ _ _ hrel f2 hf2
    by_cases hl : f1.isLoaded = true
    · exact Or.inl (hflag hl)
    · by_cases h0 : f1.pluginInstance = nullPtr
      · exact Or.inr (Or.inr (hinst.trans h0))
      · right; left
        rw [hinst]
        exact load_mem s env1 path1 f1 hf1 (Or.inl (by simpa using hl)) h0
  · intro hs dir hdir f hf h1 h2
    apply List.count_eq_one_of_mem
    · exact loadAll_nodup s env1 hs
    · exact foldl_load_mem env1 s.m_pluginDirs s dir hdir f hf h1 h2
  · intro t f hf
    exact loadFile_skip t f (Or.inl hf)
  · intro x hx h1 h2
    have hfirst : x ∉ (s.load env1 path1).m_plugins := load_not_mem s env1 path1 x hx h1
    exact ⟨hfirst, List.count_eq_zero_of_not_mem (load_not_mem _ env2 path2 x hfirst h2)⟩
  · intro x hx h1
    exact List.count_eq_zero_of_not_mem (foldl_load_not_mem env1 s.m_pluginDirs s x hx h1)

/-- Witness of C2 (amended): `goodA.plugin`, instance `1`, is loaded from the
install directory and met again by a loader that now reports it loaded; and
`early.plugin`, reported loaded from the start, never enters the registry. -/
theorem load_twice_witness :
    (PluginManager.ctor installEnv).m_plugins.Nodup ∧
    (((PluginManager.ctor installEnv).load installEnv installPluginsDir).load
      installEnvLoaded installPluginsDir).m_plugins.count 1 = 1 ∧
    ((PluginManager.ctor installEnv).load installEnv installPluginsDir).load
      installEnvLoaded installPluginsDir =
      (PluginManager.ctor installEnv).load installEnv installPluginsDir ∧
    ((PluginManager.ctor installEnv).loadAll installEnv).m_plugins.count 1 = 1 ∧
    (PluginManager.ctor installEnv).loadFile ⟨true, 7⟩ = PluginManager.ctor installEnv ∧
    (((PluginManager.ctor preloadedEnv).load preloadedEnv installPluginsDir).load
      preloadedEnv installPluginsDir).m_plugins.count 7 = 0 ∧
    ((PluginManager.ctor preloadedEnv).loadAll preloadedEnv).m_plugins.count 7 = 0 :=
  ⟨by decide,
   (load_twice (PluginManager.ctor installEnv) installEnv installEnvLoaded
      installPluginsDir installPluginsDir).1 (by decide) ⟨false, 1⟩ (by decide) (by decide)
      (by decide),
   (load_twice (PluginManager.ctor installEnv) installEnv installEnvLoaded
      installPluginsDir installPluginsDir).2.1
      (by
        have e1 : loaders installEnv installPluginsDir = [⟨false, 1⟩, ⟨false, 2⟩, ⟨false, 0⟩] := by
          decide
        have e2 : loaders installEnvLoaded installPluginsDir =
            [⟨true, 1⟩, ⟨true, 2⟩, ⟨false, 0⟩] := by
          decide
        rw [e1, e2]
        simp),
   (load_twice (PluginManager.ctor installEnv) installEnv installEnvLoaded
      installPluginsDir installPluginsDir).2.2.1 (by decide) installPluginsDir (by decide)
      ⟨false, 1⟩ (by decide) (by decide) (by decide),
   (load_twice (PluginManager.ctor installEnv) installEnv installEnvLoaded
      installPluginsDir installPluginsDir).2.2.2.1 _ ⟨true, 7⟩ rfl,
   ((load_twice (PluginManager.ctor preloadedEnv) preloadedEnv preloadedEnv
      installPluginsDir installPluginsDir).2.2.2.2.1 7 (by decide) (by decide)
      (by decide)).2,
   (load_twice (PluginManager.ctor preloadedEnv) preloadedEnv preloadedEnv
      installPluginsDir installPluginsDir).2.2.2.2.2 7 (by decide) (by decide)⟩

/-- C3, as stated, fails: on the registry that has loaded the install
directory, `load(path)` on that directory again meets N = 3 files of which
M = 1 fails to load, yet adds no entry instead of N - M = 2. -/
theorem failure_isolation_counterexample :
    (loaders installEnvLoaded installPluginsDir).length = 3 ∧
    ((loaders installEnvLoaded installPluginsDir).filter
      (fun f => f.pluginInstance = nullPtr)).length = 1 ∧
    (((PluginManager.ctor installEnv).loadAll installEnv).load installEnvLoaded
      installPluginsDir).m_plugins.length =
      ((PluginManager.ctor installEnv).loadAll installEnv).m_plugins.length ∧
    ¬ ((((PluginManager.ctor installEnv).loadAll installEnv).load installEnvLoaded
      installPluginsDir).m_plugins.length =
      ((PluginManager.ctor installEnv).loadAll installEnv).m_plugins.length +
        ((loaders installEnvLoaded installPluginsDir).length -
          ((loaders installEnvLoaded installPluginsDir).filter
            (fun f => f.pluginInstance = nullPtr)).length)) := by
  decide

/-- C3, amended. For every registry and every directory with N files of which
M fail to load (the loader yields no instance): (1) `load(path)` runs through
the whole listing and the failing files contribute nothing, its result is
that of the loop over the other N - M files; (2) a failing file leaves any
registry as it is; (3) no null entry is added and at most N - M entries are
added; (4) every loaded instance is returned by a typed query exactly when it
implements the capability of that query. (5) If none of the other N - M files
is reported loaded and their instances are pairwise distinct and not yet in
`m_plugins`, then exactly N - M entries are appended, namely those instances
in listing order, and each of them is in `m_plugins`. -/
theorem failure_isolation (types : TypeInfo) (s : PluginManager) (env : Environment)
    (path : QString) :
    s.load env path =
      s.loadFiles ((loaders env path).filter (fun f => f.pluginInstance ≠ nullPtr)) ∧
    (∀ (t : PluginManager) (f : QPluginLoader),
      f.pluginInstance = nullPtr → t.loadFile f = t) ∧
    (nullPtr ∉ s.m_plugins → nullPtr ∉ (s.load env path).m_plugins) ∧
    (s.load env path).m_plugins.length ≤
      s.m_plugins.length + ((loaders env path).length -
        ((loaders env path).filter (fun f => f.pluginInstance = nullPtr)).length) ∧
    (∀ x ∈ (s.load env path).m_plugins,
      ((⟨x⟩ : Factory Capability.ScenePluginFactory) ∈
          (s.load env path).scenePluginFactories types ↔
        implementsCapability types Capability.ScenePluginFactory x = true) ∧
      ((⟨x⟩ : Factory Capability.ExtensionPluginFactory) ∈
          (s.load env path).extensionPluginFactories types ↔
        implementsCapability types Capability.ExtensionPluginFactory x = true)) ∧
    ((∀ f ∈ loaders env path, f.pluginInstance ≠ nullPtr → f.isLoaded = false) →
      (∀ f ∈ loaders env path, f.pluginInstance ≠ nullPtr →
        f.pluginInstance ∉ s.m_plugins) →
      (((loaders env path).filter (fun f => f.pluginInstance ≠ nullPtr)).map
        QPluginLoader.pluginInstance).Nodup →
      (s.load env path).m_plugins =
        s.m_plugins ++ ((loaders env path).filter (fun f => f.pluginInstance ≠ nullPtr)).map
          QPluginLoader.pluginInstance ∧
      (s.load env path).m_plugins.length =
        s.m_plugins.length + ((loaders env path).length -
          ((loaders env path).filter (fun f => f.pluginInstance = nullPtr)).length) ∧
      (∀ f ∈ loaders env path, f.pluginInstance ≠ nullPtr →
        f.pluginInstance ∈ (s.load env path).m_plugins)) := by
  refine ⟨?_, ?_, ?_, ?_, ?_, ?_⟩
  · rw [load_eq_loadFiles]; exact loadFiles_filter_failed _ s
  · intro t f hf
    exact loadFile_skip t f (Or.inr (Or.inr hf))
  · intro h0 hmem
    obtain ⟨added, hadd, hprop⟩ := loadFiles_appends (loaders env path) s
    rw [← load_eq_loadFiles] at hadd
    rw [hadd] at hmem
    rcases List.mem_append.1 hmem with h | h
    · exact h0 h
    · exact (hprop _ h).1 rfl
  · rw [load_eq_loadFiles, ← length_filter_loaded]
    exact loadFiles_length_le _ s
  · intro x hx
    exact ⟨(mem_pluginFactories _ types _ _).trans ⟨fun h => h.2, fun h => ⟨hx, h⟩⟩,
      (mem_pluginFactories _ types _ _).trans ⟨fun h => h.2, fun h => ⟨hx, h⟩⟩⟩
  · intro hflag hnew hdistinct
    have hplugins : (s.load env path).m_plugins =
        s.m_plugins ++ ((loaders env path).filter (fun f => f.pluginInstance ≠ nullPtr)).map
          QPluginLoader.pluginInstance := by
      rw [load_eq_loadFiles]; exact loadFiles_length _ s hflag hnew hdistinct
    refine ⟨hplugins, ?_, ?_⟩
    · rw [hplugins, List.length_append, List.length_map, length_filter_loaded]
    · intro f hf h0
      exact load_mem s env path f hf (Or.inl (hflag f hf h0)) h0

/-- Witness of C3 (amended), the scenario of the spec: `goodA.plugin`,
`goodB.plugin` and the corrupt `bad.plugin` on a fresh registry give two
loaded plugins, the scene query returns `goodA` and the extension query
`goodB`; the corrupt file changes nothing, also when the directory is scanned
a second time. -/
theorem failure_isolation_witness :
    ((PluginManager.ctor installEnv).load installEnv installPluginsDir).m_plugins.length = 2 ∧
    ((PluginManager.ctor installEnv).load installEnv installPluginsDir).m_plugins = [1, 2] ∧
    ((PluginManager.ctor installEnv).loadAll installEnv).m_plugins.length = 2 ∧
    ((PluginManager.ctor installEnv).loadAll installEnv).scenePluginFactories exampleTypes =
      [⟨1⟩] ∧
    ((PluginManager.ctor installEnv).loadAll installEnv).extensionPluginFactories
      exampleTypes = [⟨2⟩] ∧
    ((PluginManager.ctor installEnv).loadAll installEnv).loadFile ⟨false, nullPtr⟩ =
      (PluginManager.ctor installEnv).loadAll installEnv ∧
    (((PluginManager.ctor installEnv).loadAll installEnv).load installEnvLoaded
      installPluginsDir).m_plugins.length ≤
      ((PluginManager.ctor installEnv).loadAll installEnv).m_plugins.length +
        ((loaders installEnvLoaded installPluginsDir).length -
          ((loaders installEnvLoaded installPluginsDir).filter
            (fun f => f.pluginInstance = nullPtr)).length) :=
  ⟨((failure_isolation exampleTypes (PluginManager.ctor installEnv) installEnv
      installPluginsDir).2.2.2.2.2 (by decide) (by decide) (by decide)).2.1,
   ((failure_isolation exampleTypes (PluginManager.ctor installEnv) installEnv
      installPluginsDir).2.2.2.2.2 (by decide) (by decide) (by decide)).1,
   by decide, by decide, by decide,
   (failure_isolation exampleTypes (PluginManager.ctor installEnv) installEnv
      installPluginsDir).2.1 _ ⟨false, nullPtr⟩ rfl,
   (failure_isolation exampleTypes ((PluginManager.ctor installEnv).loadAll installEnv)
      installEnvLoaded installPluginsDir).2.2.2.1⟩

/-- C8, as stated, fails: without `__APPLE__` the constructor does not look
for the marker; in `installEnv` no `qt.conf` exists, yet the directory stored
is the installed-convention path and not the build-tree-convention path. -/
theorem layout_fallback_counterexample :
    installEnv.fileExists (installedLayoutMarker installEnv) = false ∧
    (PluginManager.ctor installEnv).m_pluginDirs = [installedConventionPath installEnv] ∧
    (PluginManager.ctor installEnv).m_pluginDirs =
      ["/home/user/avogadro/install/lib/avogadro2/plugins"] ∧
    buildTreeConventionPath installEnv = "/home/lib/avogadro2/plugins" ∧
    ¬ ((PluginManager.ctor installEnv).m_pluginDirs = [buildTreeConventionPath installEnv]) := by
  decide

/-- C8, amended. The constructor stores exactly one directory. Compiled with
`__APPLE__`: if the marker file `<exe dir>/../Resources/qt.conf` is absent, it
is the build-tree-convention path (which is not the installed-convention path
whenever the two differ); if the marker is present, it is the
installed-convention path. Compiled without `__APPLE__`, it is the
installed-convention path whether or not the marker exists. -/
theorem layout_resolution (env : Environment) :
    (env.isApple = true → env.fileExists (installedLayoutMarker env) = false →
      (PluginManager.ctor env).m_pluginDirs = [buildTreeConventionPath env] ∧
      (buildTreeConventionPath env ≠ installedConventionPath env →
        (PluginManager.ctor env).m_pluginDirs ≠ [installedConventionPath env])) ∧
    (env.fileExists (installedLayoutMarker env) = true →
      (PluginManager.ctor env).m_pluginDirs = [installedConventionPath env]) ∧
    (env.isApple = false →
      (PluginManager.ctor env).m_pluginDirs = [installedConventionPath env]) := by
  refine ⟨?_, ?_, ?_⟩
  · intro ha hm
    have hdirs : (PluginManager.ctor env).m_pluginDirs = [buildTreeConventionPath env] := by
      unfold installedLayoutMarker at hm
      simp [PluginManager.ctor, buildTreeConventionPath, ha, hm]
    refine ⟨hdirs, fun hne h => hne ?_⟩
    rw [hdirs] at h
    exact List.head_eq_of_cons_eq h
  · intro hm
    unfold installedLayoutMarker at hm
    simp [PluginManager.ctor, installedConventionPath, hm]
  · intro ha
    simp [PluginManager.ctor, installedConventionPath, ha]

/-- Witness of C8 (amended): the build tree of `macBuildEnv` resolves to
`/build/lib/avogadro2/plugins`, the bundle of `macBundleEnv` and the
installation of `installEnv` to their installed-convention paths. -/
theorem layout_resolution_witness :
    (PluginManager.ctor macBuildEnv).m_pluginDirs = [buildTreeConventionPath macBuildEnv] ∧
    buildTreeConventionPath macBuildEnv = "/build/lib/avogadro2/plugins" ∧
    (PluginManager.ctor macBuildEnv).m_pluginDirs ≠ [installedConventionPath macBuildEnv] ∧
    (PluginManager.ctor macBundleEnv).m_pluginDirs =
      [installedConventionPath macBundleEnv] ∧
    (PluginManager.ctor installEnv).m_pluginDirs = [installedConventionPath installEnv] :=
  ⟨((layout_resolution macBuildEnv).1 (by decide) (by decide)).1,
   by decide,
   ((layout_resolution macBuildEnv).1 (by decide) (by decide)).2 (by decide),
   (layout_resolution macBundleEnv).2.1 (by decide),
   (layout_resolution installEnv).2.2 (by decide)⟩

end QtGui
end Avogadro
